import Mathlib

/-!
Shallow embedding of the token-metadata normalization engine of the
ergo-basic-template repository (src/utils/metadata.ts, src/utils/tokenProcessing.ts,
src/utils/tokenFiltering.ts, src/utils/textFormat.ts), together with theorems
settling the frozen claims about it.

JavaScript runtime conventions are made explicit:
* `JsVal` models the JavaScript values flowing through the metadata code
  (JSON numbers are modelled as integers; no claim involves fractional values).
* `JSON.parse` is a parameter `jp : String → Except String JsVal`; a thrown
  `SyntaxError` is an `Except.error`.  `JSON.stringify` is likewise a parameter
  where needed.  Concrete scenario theorems instantiate these with functions
  whose behaviour on the relevant literal agrees with real JSON.
* Property access on `null`/`undefined` throws (`getFieldE`, `entriesOfE`);
  access on other primitives yields `undefined` (`getProp`).
* Functions of the repository that contain a `try`/`catch` are embedded in two
  layers: an `Except`-valued translation of the `try` body (suffix `E`), and
  the catching wrapper with the source's name.
-/

namespace Ergo

/-!  Kernel-reducible models of the JavaScript string builtins.  The
corresponding Lean core functions recurse on byte positions through
well-founded recursion, which blocks evaluation inside `rfl`/`decide`
proofs, so the embedding carries its own character-list implementations. -/

/-- JavaScript `String.prototype.trim` (ASCII whitespace). -/
def jsTrim (s : String) : String :=
  String.mk (((s.toList.dropWhile Char.isWhitespace).reverse.dropWhile
    Char.isWhitespace).reverse)

/-- JavaScript `String.prototype.startsWith`. -/
def jsStartsWith (s p : String) : Bool :=
  p.toList.isPrefixOf s.toList

/-- JavaScript `String.prototype.includes` for a single character. -/
def jsContainsChar (s : String) (c : Char) : Bool :=
  s.toList.contains c

/-- JavaScript `String.prototype.toLowerCase` (ASCII range). -/
def jsToLower (s : String) : String :=
  String.mk (s.toList.map Char.toLower)

/-- Fuel-indexed splitter behind `jsSplit`. -/
def jsSplitGo (sep : List Char) : Nat → List Char → List Char → List (List Char)
  | 0, l, acc => [acc.reverse ++ l]
  | _, [], acc => [acc.reverse]
  | fuel + 1, c :: rest, acc =>
      if sep.isPrefixOf (c :: rest) then
        acc.reverse :: jsSplitGo sep fuel ((c :: rest).drop sep.length) []
      else
        jsSplitGo sep fuel rest (acc ++ [c])

/-- JavaScript `String.prototype.split` on a non-empty separator (the code
never splits on the empty string, which JavaScript treats per character). -/
def jsSplit (s sep : String) : List String :=
  if sep == "" then s.toList.map (fun c => String.mk [c])
  else (jsSplitGo sep.toList (s.length + 1) s.toList []).map String.mk

/-- A canonical numeric property key (the form under which JavaScript treats
a string key as an array/string index). -/
def strToNatCanon (k : String) : Option Nat :=
  let l := k.toList
  if l.isEmpty then none
  else if l.all Char.isDigit && (l == ['0'] || l.headD '0' != '0') then
    some (l.foldl (fun a c => a * 10 + (c.toNat - 48)) 0)
  else none

/-- JavaScript values as they occur in the metadata domain. -/
inductive JsVal where
  | undefined
  | null
  | bool (b : Bool)
  | num (n : Int)
  | str (s : String)
  | arr (elems : List JsVal)
  | obj (fields : List (String × JsVal))
deriving Repr

/-- JavaScript truthiness (`NaN` is not modelled; JSON cannot produce it). -/
def truthy : JsVal → Bool
  | .undefined => false
  | .null => false
  | .bool b => b
  | .num n => n != 0
  | .str s => s != ""
  | .arr _ => true
  | .obj _ => true

/-- Whether `typeof v === 'object'` holds (true for `null`, arrays and objects). -/
def typeofObject : JsVal → Bool
  | .null => true
  | .arr _ => true
  | .obj _ => true
  | _ => false

/-- The model of `Object.keys` for non-nullish receivers: field names of an
object (insertion order), index strings of an array or string, else empty. -/
def keysOf : JsVal → List String
  | .obj fs => fs.map Prod.fst
  | .arr xs => (List.range xs.length).map toString
  | .str s => (List.range s.length).map toString
  | _ => []

/-- Non-throwing property read `v[k]` for non-nullish `v`
(missing properties give `undefined`). -/
def getProp (v : JsVal) (k : String) : JsVal :=
  match v with
  | .obj fs => (fs.lookup k).getD .undefined
  | .arr xs =>
      match strToNatCanon k with
      | some i => xs.getD i .undefined
      | none => .undefined
  | .str s =>
      match strToNatCanon k with
      | some i =>
          match s.toList.get? i with
          | some c => .str (String.mk [c])
          | none => .undefined
      | none => .undefined
  | _ => .undefined

/-- Property read `v[k]` with the JavaScript TypeError on nullish receivers. -/
def getFieldE : JsVal → String → Except String JsVal
  | .undefined, _ => .error "TypeError"
  | .null, _ => .error "TypeError"
  | v, k => .ok (getProp v k)

/-- The model of `Object.entries` for non-nullish receivers. -/
def entriesOf : JsVal → List (String × JsVal)
  | .obj fs => fs
  | .arr xs => xs.enum.map (fun p => (toString p.1, p.2))
  | .str s => s.toList.enum.map (fun p => (toString p.1, .str (String.mk [p.2])))
  | _ => []

/-- `Object.entries` including its TypeError on `null`/`undefined`. -/
def entriesOfE : JsVal → Except String (List (String × JsVal))
  | .undefined => .error "TypeError"
  | .null => .error "TypeError"
  | v => .ok (entriesOf v)

mutual

/-- Stringification of one array element inside `Array.prototype.toString`
(`null` and `undefined` elements become the empty string). -/
def jsStringElem : JsVal → String
  | .undefined => ""
  | .null => ""
  | .bool true => "true"
  | .bool false => "false"
  | .num n => toString n
  | .str s => s
  | .arr xs => jsStringElems xs
  | .obj _ => "[object Object]"

/-- Comma-joined stringification of array elements. -/
def jsStringElems : List JsVal → String
  | [] => ""
  | [x] => jsStringElem x
  | x :: xs => jsStringElem x ++ "," ++ jsStringElems xs

end

/-- JavaScript `String(v)` conversion. -/
def jsString : JsVal → String
  | .undefined => "undefined"
  | .null => "null"
  | .arr xs => jsStringElems xs
  | v => jsStringElem v

/-- Assignment `record[k] = v` on a `Record<string, string>`: replaces the value
in place when the key exists, otherwise appends (insertion order kept). -/
def recordSet (r : List (String × String)) (k v : String) : List (String × String) :=
  if r.any (fun p => p.1 == k) then
    r.map (fun p => if p.1 == k then (k, v) else p)
  else r ++ [(k, v)]

/-- Storing a JavaScript value into a field the TypeScript types declare as
`string | undefined`: falsy values are modelled as absent (they compare equal
to absent under every truthiness test the code performs), truthy values by
their string conversion. -/
def asOptString (v : JsVal) : Option String :=
  if truthy v then some (jsString v) else none

/-- JavaScript `a || b` for values. -/
def jsOr (a b : JsVal) : JsVal :=
  if truthy a then a else b

/-- JavaScript `v || d` where the result is used as a string. -/
def jsOrStr (v : JsVal) (d : String) : String :=
  if truthy v then jsString v else d

/-- JavaScript `a || b` on an optional string against a string default. -/
def orStr (a : Option String) (b : String) : String :=
  match a with
  | some s => if s != "" then s else b
  | none => b

/-- Truthiness of an optional string (absent and empty are falsy). -/
def truthyS (a : Option String) : Bool :=
  match a with
  | some s => s != ""
  | none => false

/-- The `type` discriminator of `TokenMetadata` (metadata.ts). -/
inductive MetaType where
  | json
  | m721
  | list
  | ergo
  | rosenBridge
  | unknown
deriving Repr, DecidableEq

/-- The `data` field of `TokenMetadata`: `Record<string, any> | string[]`. -/
inductive MetaPayload where
  | value (v : JsVal)
  | lines (xs : List String)
deriving Repr

/-- Unified metadata record (`TokenMetadata` in metadata.ts).  Scalar fields
declared `string | undefined` in TypeScript are `Option String` here; see
`asOptString` for how runtime values are stored into them. -/
structure TokenMetadata where
  type : MetaType
  data : MetaPayload
  image : Option String := none
  name : Option String := none
  description : Option String := none
  traits : Option (List (String × String)) := none
  collection : Option String := none
  creator : Option String := none
  royalty : Option String := none
  standard : Option String := none
  decimals : Option Int := none
deriving Repr

/-- Metadata processing options (`MetadataOptions` in metadata.ts). -/
structure MetadataOptions where
  includeFullData : Option Bool := none
  extractTraits : Option Bool := none
deriving Repr

/-- Strict equality test `v === undefined`. -/
def isUndefined : JsVal → Bool
  | .undefined => true
  | _ => false

/-- Whether `typeof v` is `'string'`, `'number'` or `'boolean'`. -/
def isScalarType : JsVal → Bool
  | .str _ => true
  | .num _ => true
  | .bool _ => true
  | _ => false

/-- Embedding of `extractTraits` (metadata.ts).  The source has no
`try`/`catch`, so the TypeErrors raised by property access on nullish input
propagate to the caller as `Except.error`. -/
def extractTraits (data : JsVal) (extractFromProperties : Bool) :
    Except String (Option (List (String × String))) := do
  let dTraits ← getFieldE data "traits"
  let t1 : List (String × String) :=
    if truthy dTraits && typeofObject dTraits then
      (entriesOf dTraits).foldl (fun acc kv => recordSet acc kv.1 (jsString kv.2)) []
    else []
  let t2 ←
    match getProp data "attributes" with
    | .arr attrs =>
        attrs.foldlM (fun acc attr => do
          let tt ← getFieldE attr "trait_type"
          if truthy tt && !isUndefined (getProp attr "value") then
            pure (recordSet acc (jsString tt) (jsString (getProp attr "value")))
          else
            pure acc) t1
    | _ => pure t1
  let t3 ←
    if extractFromProperties then do
      let props ← getFieldE data "properties"
      if truthy props && typeofObject props then
        pure ((entriesOf props).foldl (fun acc kv =>
          if isScalarType kv.2 then recordSet acc kv.1 (jsString kv.2)
          else if truthy kv.2 && typeofObject kv.2 && !isUndefined (getProp kv.2 "value") then
            recordSet acc kv.1 (jsString (getProp kv.2 "value"))
          else acc) t2)
      else pure t2
    else pure t2
  pure (if t3.length > 0 then some t3 else none)

/-- Embedding of `detectMetadataStandard` (metadata.ts).  The `.some` scan over
`data.attributes` uses the non-throwing property read: whenever it would throw
in JavaScript, the `extractTraits` call evaluated earlier in the same object
literal has already thrown on the same element. -/
def detectMetadataStandard (data : JsVal) : Option String :=
  if truthy (getProp data "721") then some "721"
  else if truthy (getProp data "ergo") then some "ergo"
  else if truthy (getProp data "eip") then some ("ergo-" ++ jsString (getProp data "eip"))
  else if truthy (getProp data "title") && truthy (getProp data "originNetwork") &&
      truthy (getProp data "originToken") then some "rosenBridge"
  else if (match getProp data "attributes" with
      | .arr xs => xs.any (fun a => truthy (getProp a "trait_type") && truthy (getProp a "value"))
      | _ => false) then some "opensea-compatible"
  else none

/-- JavaScript `x.includes('#')` on a value known to be truthy: substring test
for strings, element test for arrays, TypeError otherwise. -/
def jsIncludesHashE : JsVal → Except String Bool
  | .str s => .ok (jsContainsChar s '#')
  | .arr xs => .ok (xs.any (fun x => match x with | .str s => s == "#" | _ => false))
  | v => if truthy v then .error "TypeError" else .ok false

/-- JavaScript `x.split('#')[0].trim()`; only a string receiver supports it. -/
def jsSplitHashHeadTrimE : JsVal → Except String String
  | .str s => .ok (jsTrim ((jsSplit s "#").headD ""))
  | _ => .error "TypeError"

/-- Embedding of `parseErgoTokenMetadata` (metadata.ts).  No local `catch`:
TypeErrors from the attributes loop or from `name.includes`/`split` propagate. -/
def parseErgoTokenMetadata (data : JsVal) : Except String TokenMetadata := do
  let traits ←
    match getProp data "attributes" with
    | .arr attrs =>
        attrs.foldlM (fun acc attr => do
          let tt ← getFieldE attr "trait_type"
          if truthy tt && truthy (getProp attr "value") then
            pure (recordSet acc (jsString tt) (jsString (getProp attr "value")))
          else
            pure acc) ([] : List (String × String))
    | _ => pure []
  let collection0 := getProp data "collection"
  let name0 := getProp data "name"
  let collection ←
    if !truthy collection0 && truthy name0 then do
      let hasHash ← jsIncludesHashE name0
      if hasHash then do
        let c ← jsSplitHashHeadTrimE name0
        pure (some c)
      else pure (asOptString collection0)
    else pure (asOptString collection0)
  pure {
    type := .ergo,
    data := .value data,
    name := some (jsOrStr name0 "Unknown Token"),
    description := some (jsOrStr (getProp data "description") ""),
    image := asOptString (jsOr (getProp data "imageUrl")
      (jsOr (getProp data "image") (getProp data "image_url"))),
    traits := if traits.length > 0 then some traits else none,
    collection := collection,
    creator := asOptString (jsOr (getProp data "creator")
      (jsOr (getProp data "artist") (getProp data "minter"))),
    standard := some "ergo",
    decimals := some (match getProp data "decimals" with
      | .num n => n
      | _ => 0) }

/-- Embedding of `parseRosenBridgeMetadata` (metadata.ts).  Reached only when
`data.title && data.originNetwork && data.originToken` is truthy, so `data` is
a non-nullish object and the function cannot throw. -/
def parseRosenBridgeMetadata (data : JsVal) : TokenMetadata :=
  let t0 : List (String × String) :=
    if truthy (getProp data "originNetwork") then
      recordSet [] "Origin Network" (jsString (getProp data "originNetwork"))
    else []
  let t1 :=
    if truthy (getProp data "originToken") then
      recordSet t0 "Origin Token" (jsString (getProp data "originToken"))
    else t0
  let t2 :=
    if !isUndefined (getProp data "isNativeToken") then
      recordSet t1 "Is Native Token" (if truthy (getProp data "isNativeToken") then "Yes" else "No")
    else t1
  let t3 := (entriesOf data).foldl (fun acc kv =>
    if ["title", "originNetwork", "originToken", "isNativeToken"].contains kv.1 then acc
    else recordSet acc kv.1 (jsString kv.2)) t2
  { type := .rosenBridge,
    data := .value data,
    name := some (jsOrStr (getProp data "title") "Wrapped Token"),
    description := some (jsString (getProp data "title") ++ " - Wrapped from " ++
      jsString (getProp data "originNetwork")),
    traits := if t3.length > 0 then some t3 else none,
    collection := some "Rosen Bridge Wrapped Tokens",
    standard := some "rosenBridge" }

/-- The literal prefix `\x7b"721":` that routes input to the 721 parser. -/
def tag721 : String := "\x7b\"721\":"

/-- The `try` body of `parse721Metadata` (metadata.ts): `jp` models
`JSON.parse`.  The four-way shape disambiguation keeps the source's mutable
locals as a tuple `(tokenData, tokenId, collectionName, tokenName)`. -/
def parse721MetadataE (jp : String → Except String JsVal) (text : String) :
    Except String (Option TokenMetadata) := do
  let json ← jp text
  if !truthy json || !truthy (getProp json "721") then
    pure none
  else
    let content := getProp json "721"
    match (keysOf content).head? with
    | none => pure none
    | some policyId =>
      if policyId == "" then pure none
      else do
        let policyData := getProp content policyId
        let st ←
          if typeofObject policyData then do
            let entries ← entriesOfE policyData
            match entries.find? (fun kv =>
                match kv.2 with | .str s => s == policyId | _ => false) with
            | some kv => pure (policyData, policyId, kv.1, policyId)
            | none =>
              if truthy (getProp policyData "name") ||
                  truthy (getProp policyData "description") then
                pure (policyData, "", policyId, jsOrStr (getProp policyData "name") policyId)
              else if (keysOf policyData).length == 1 then do
                let tokenId := (keysOf policyData).headD ""
                let nestedData := getProp policyData tokenId
                if typeofObject nestedData then do
                  let nentries ← entriesOfE nestedData
                  match nentries.find? (fun kv =>
                      match kv.2 with | .str s => s != tokenId | _ => false) with
                  | some kv => pure (nestedData, tokenId, kv.1, tokenId)
                  | none => pure (nestedData, tokenId, policyId, tokenId)
                else
                  pure (JsVal.obj [], tokenId, "", "")
              else
                pure (policyData, "", policyId, jsOrStr (getProp policyData "name") policyId)
          else
            pure (JsVal.obj [], "", "", "")
        let (tokenData, tokenId, collectionName, tokenName) := st
        let dTraits := getProp tokenData "traits"
        let t1 : List (String × String) :=
          if truthy dTraits && typeofObject dTraits then
            (entriesOf dTraits).foldl (fun acc kv => recordSet acc kv.1 (jsString kv.2)) []
          else []
        let t2 ←
          match getProp tokenData "attributes" with
          | .arr attrs =>
              attrs.foldlM (fun acc attr => do
                let tt ← getFieldE attr "trait_type"
                if truthy tt && truthy (getProp attr "value") then
                  pure (recordSet acc (jsString tt) (jsString (getProp attr "value")))
                else
                  pure acc) t1
          | _ => pure t1
        let series := jsOrStr (getProp tokenData "series") ""
        let seed := jsOrStr (getProp tokenData "seed") ""
        let creator := jsOrStr (getProp tokenData "creator") ""
        let t3 := if series != "" then recordSet t2 "Series" series else t2
        let t4 := if seed != "" then recordSet t3 "Seed" seed else t3
        let t5 := if tokenId != "" then recordSet t4 "Token ID" policyId else t4
        pure (some {
          type := .m721,
          data := .value tokenData,
          name := some tokenName,
          description := some (if truthy (getProp tokenData "description") then
            jsString (getProp tokenData "description")
          else jsTrim (collectionName ++ " " ++ tokenId)),
          image := asOptString (getProp tokenData "image"),
          traits := if t5.length > 0 then some t5 else none,
          collection := some collectionName,
          creator := some creator,
          standard := some "721" })

/-- `parse721Metadata` (metadata.ts): the `try` body with its catch-all
`catch` clause, which logs and returns `null`. -/
def parse721Metadata (jp : String → Except String JsVal) (text : String) :
    Option TokenMetadata :=
  match parse721MetadataE jp text with
  | .ok r => r
  | .error _ => none

/-- The continuation of `parseMetadata`'s structured branch (metadata.ts lines
handling the decoded JSON value).  Every path yields a `TokenMetadata` record;
only property-access TypeErrors escape (to `parseMetadata`'s catch). -/
def parseStructuredJson (json : JsVal) (options : MetadataOptions) :
    Except String TokenMetadata := do
  match json with
  | .arr xs => pure { type := .list, data := .lines (xs.map jsString) }
  | _ => do
    let tokenId ← getFieldE json "tokenId"
    let assetId ← getFieldE json "assetId"
    if truthy tokenId || truthy assetId then
      parseErgoTokenMetadata json
    else if truthy (getProp json "title") && truthy (getProp json "originNetwork") &&
        truthy (getProp json "originToken") then
      pure (parseRosenBridgeMetadata json)
    else do
      let traits ← extractTraits json ((options.extractTraits.getD false) || false)
      pure {
        type := .json,
        data := if options.includeFullData.getD false then .value json else .value (.obj []),
        name := asOptString (getProp json "name"),
        description := asOptString (getProp json "description"),
        image := asOptString (jsOr (getProp json "image")
          (jsOr (getProp json "imageUrl") (getProp json "image_url"))),
        traits := traits,
        collection := asOptString (jsOr (getProp json "collection")
          (getProp json "collectionName")),
        creator := asOptString (jsOr (getProp json "creator")
          (jsOr (getProp json "artist") (getProp json "author"))),
        standard := detectMetadataStandard json }

/-- The `try` body of `parseMetadata` (metadata.ts).  The 721 branch delegates
to `parse721Metadata`, which never throws; the structured branch propagates
`JSON.parse` and property-access errors to the catch clause. -/
def parseBodyE (jp : String → Except String JsVal) (options : MetadataOptions)
    (text : String) : Except String (Option TokenMetadata) :=
  let trimmed := jsTrim text
  if jsStartsWith trimmed tag721 then
    .ok (parse721Metadata jp trimmed)
  else if jsStartsWith trimmed "\x7b" || jsStartsWith trimmed "[" then do
    let json ← jp trimmed
    let m ← parseStructuredJson json options
    pure (some m)
  else if jsContainsChar text '\n' then
    let lines := ((jsSplit text "\n").map jsTrim).filter (fun line => line.length > 0)
    if lines.length > 0 then
      .ok (some { type := .list, data := .lines lines })
    else
      .ok (some { type := .list, data := .lines [text] })
  else
    .ok (some { type := .list, data := .lines [text] })

/-- `parseMetadata` (metadata.ts), with the error path of its catch-all
`catch` clause kept in the result type: the clause returns the
`type = unknown` single-entry record and the function itself never throws. -/
def parseMetadataE (jp : String → Except String JsVal) (text : String)
    (options : MetadataOptions) : Except String (Option TokenMetadata) :=
  if text == "" then .ok none
  else
    match parseBodyE jp options text with
    | .ok r => .ok r
    | .error _ => .ok (some { type := .unknown, data := .lines [text] })

/-- `parseMetadata` as the total function observed by callers. -/
def parseMetadata (jp : String → Except String JsVal) (text : String)
    (options : MetadataOptions) : Option TokenMetadata :=
  match parseMetadataE jp text options with
  | .ok r => r
  | .error _ => none

/-- Token categories (`TokenType` in tokenProcessing.ts). -/
inductive TokenType where
  | nft
  | fungible
  | unknown
deriving Repr, DecidableEq

/-- One `⟨trait_type, value⟩` attribute entry. -/
structure Attr where
  trait_type : String
  value : String
deriving Repr, DecidableEq

/-- A raw wallet balance record as consumed by `processTokenData` and `isNFT`.
The fields the code reads are typed as the wallet supplies them: optional
strings, an optional attribute array (absent is modelled as `[]`, which the
code's `token.attributes || []` makes indistinguishable from absent), and an
optional structured `metadata` object. -/
structure RawToken where
  tokenId : Option String := none
  id : Option String := none
  amount : Option String := none
  name : Option String := none
  description : Option String := none
  imageUrl : Option String := none
  image : Option String := none
  collection : Option String := none
  attributes : List Attr := []
  decimals : Option Int := none
  metadata : Option JsVal := none
  creator : Option String := none
  contractAddress : Option String := none
deriving Repr

/-- Processing options (`TokenProcessingOptions` in tokenProcessing.ts). -/
structure TokenProcessingOptions where
  metadataOptions : Option MetadataOptions := none
  includeRawData : Option Bool := none
  detectCollections : Option Bool := none
  generatePlaceholderImage : Option Bool := none
deriving Repr

/-- Embedding of `isUrl` (textFormat.ts), which wraps `new URL(str)` in a
`try`/`catch`.  URL validity is modelled as the WHATWG requirement that the
input carry a scheme: an initial alphabetic character, scheme characters up to
the first `:`, and at least one character of remainder position (the colon
itself).  Every string either side of a claim exercises only the clear cases
(the empty string, scheme-less text, JSON text). -/
def isUrl (s : String) : Bool :=
  match jsSplit s ":" with
  | scheme :: _ :: _ =>
      scheme.length > 0 && (scheme.toList.headD ' ').isAlpha &&
        scheme.toList.all (fun c => c.isAlphanum || c == '+' || c == '-' || c == '.')
  | _ => false

/-- Hexadecimal digit character (upper case, as `encodeURIComponent` emits). -/
def hexDigit (n : Nat) : Char :=
  if n < 10 then Char.ofNat (48 + n) else Char.ofNat (65 + (n - 10))

/-- UTF-8 bytes of a code point. -/
def utf8Bytes (n : Nat) : List Nat :=
  if n < 0x80 then [n]
  else if n < 0x800 then [0xC0 + n / 0x40, 0x80 + n % 0x40]
  else if n < 0x10000 then [0xE0 + n / 0x1000, 0x80 + (n / 0x40) % 0x40, 0x80 + n % 0x40]
  else [0xF0 + n / 0x40000, 0x80 + (n / 0x1000) % 0x40, 0x80 + (n / 0x40) % 0x40,
    0x80 + n % 0x40]

/-- Characters `encodeURIComponent` leaves unescaped. -/
def isUnreservedURIChar (c : Char) : Bool :=
  c.isAlphanum || (['-', '_', '.', '!', '~', '*', '(', ')'].contains c) || c == Char.ofNat 39

/-- The JavaScript `encodeURIComponent` builtin. -/
def encodeURIComponent (s : String) : String :=
  String.join (s.toList.map (fun c =>
    if isUnreservedURIChar c then String.mk [c]
    else String.join ((utf8Bytes c.toNat).map (fun b =>
      String.mk ['%', hexDigit (b / 16), hexDigit (b % 16)]))))

/-- Embedding of `generatePlaceholderImage` (tokenProcessing.ts); the argument
object carries the two fields the function reads. -/
def generatePlaceholderImage (tokenId name : Option String) : String :=
  let hash :=
    match tokenId with
    | some s =>
        let sub := String.mk (s.toList.take 6)
        if sub == "" then "ffffff" else sub
    | none => "ffffff"
  let nm := encodeURIComponent (orStr name "Unknown Token")
  "https://via.placeholder.com/400/" ++ hash ++ "?text=" ++ nm

/-- The test `token.name && token.name.includes('#')` of `isNFT`. -/
def nameHasHash (token : RawToken) : Bool :=
  match token.name with
  | some s => jsContainsChar s '#'
  | none => false

/-- Embedding of `isNFT` (tokenProcessing.ts). -/
def isNFT (token : RawToken) : Bool :=
  let amount := token.amount.getD ""
  if amount != "1" then false
  else if truthyS token.imageUrl || truthyS token.image then true
  else if truthyS token.description then true
  else if nameHasHash token then true
  else false

/-- The JavaScript `parseInt` builtin restricted to base-10 numerals: leading
whitespace, an optional sign, then the longest decimal digit prefix; `none`
models `NaN`. -/
def parseIntJS (s : String) : Option Int :=
  let digitsPrefix : List Char → Option Nat := fun l =>
    let ds := l.takeWhile Char.isDigit
    if ds.isEmpty then none
    else some (ds.foldl (fun a c => a * 10 + (c.toNat - 48)) 0)
  match (jsTrim s).toList with
  | '-' :: rest => (digitsPrefix rest).map (fun n => -(n : Int))
  | '+' :: rest => (digitsPrefix rest).map (fun n => (n : Int))
  | l => (digitsPrefix l).map (fun n => (n : Int))

/-- The classification ternary of `processTokenData` (tokenProcessing.ts line
computing `tokenType`). -/
def classifyToken (token : RawToken) : TokenType :=
  if isNFT token then .nft
  else if (match parseIntJS (orStr token.amount "0") with
    | some n => decide (n > 1)
    | none => false) then .fungible
  else .unknown

/-- The trait-merge loop of `processTokenData`: state is the attribute list
being extended together with the `existingTraitTypes` set of lower-cased
names. -/
def mergeGo : List (String × String) → List Attr × List String → List Attr × List String
  | [], st => st
  | (k, v) :: rest, (attributes, seen) =>
      let lower := jsToLower k
      if seen.contains lower then mergeGo rest (attributes, seen)
      else mergeGo rest (attributes ++ [{ trait_type := k, value := v }], seen ++ [lower])

/-- Appending metadata traits to the attribute list with case-insensitive
de-duplication (tokenProcessing.ts lines 117-135). -/
def mergeAttributes (attributes : List Attr) (traits : List (String × String)) : List Attr :=
  (mergeGo traits (attributes, attributes.map (fun a => jsToLower a.trait_type))).1

/-- The attribute list after the metadata-application block of
`processTokenData`. -/
def resolveAttributes (attributes : List Attr) (m : TokenMetadata) : List Attr :=
  match m.traits with
  | some ts => if ts.length > 0 then mergeAttributes attributes ts else attributes
  | none => attributes

/-- Processed token record (`TokenData` in TokenCard.tsx). -/
structure TokenData where
  tokenId : String
  name : String
  description : String
  imageUrl : String
  amount : Option String := none
  decimals : Option Int := none
  collection : Option String := none
  attributes : Option (List Attr) := none
  metadata : Option TokenMetadata := none
  tokenType : Option TokenType := none
  rawData : Option RawToken := none
deriving Repr

/-- Embedding of `processTokenData` (tokenProcessing.ts).  `jp` models
`JSON.parse`, `strf` models `JSON.stringify` on the structured metadata
object.  The source mutates `name`, `description`, `imageUrl`, `collection`
and `attributes` sequentially; here each mutation becomes a successive
binding with the same data flow.  Both `try`/`catch` wrappers around
`parseMetadata` calls are dead (that function never throws), so the calls are
direct. -/
def processTokenData (jp : String → Except String JsVal) (strf : JsVal → String)
    (token : RawToken) (options : TokenProcessingOptions) : TokenData :=
  let metadataOptions := options.metadataOptions.getD {}
  let includeRawData := options.includeRawData.getD false
  let detectCollections := (options.detectCollections.getD false) || true
  let genPlaceholder := (options.generatePlaceholderImage.getD false) || true
  let tokenId := orStr token.tokenId (orStr token.id "")
  let imageUrl0 := orStr token.imageUrl (orStr token.image "")
  let description0 := orStr token.description ""
  let name0 := orStr token.name "Unknown Token"
  let collection0 := orStr token.collection ""
  let attributes0 := token.attributes
  let decimals := token.decimals.getD 0
  let pm0 : Option TokenMetadata :=
    match token.metadata with
    | some m =>
        if truthy m && typeofObject m then parseMetadata jp (strf m) metadataOptions
        else none
    | none => none
  let pm : Option TokenMetadata :=
    match pm0 with
    | some m => some m
    | none => if description0 != "" then parseMetadata jp description0 metadataOptions else none
  let name1 := match pm with
    | some m => if truthyS m.name then m.name.getD "" else name0
    | none => name0
  let description1 := match pm with
    | some m => if truthyS m.description then m.description.getD "" else description0
    | none => description0
  let imageUrl1 := match pm with
    | some m =>
        if truthyS m.image && isUrl (m.image.getD "") then m.image.getD "" else imageUrl0
    | none => imageUrl0
  let collection1 := match pm with
    | some m => if truthyS m.collection then m.collection.getD "" else collection0
    | none => collection0
  let collection2 := match pm with
    | some m =>
        if m.type == .rosenBridge && collection1 == "" then "Rosen Bridge Wrapped Tokens"
        else collection1
    | none => collection1
  let attributes1 := match pm with
    | some m => resolveAttributes attributes0 m
    | none => attributes0
  let imageUrl2 := if imageUrl1 == "" && isUrl description1 then description1 else imageUrl1
  let description2 := if imageUrl1 == "" && isUrl description1 then "" else description1
  let imageUrl3 :=
    if imageUrl2 == "" && genPlaceholder then
      generatePlaceholderImage (some tokenId) (some name1)
    else imageUrl2
  let collection3 :=
    if collection2 == "" && (detectCollections && jsContainsChar name1 '#') then
      jsTrim ((jsSplit name1 "#").headD "")
    else collection2
  { tokenId := tokenId,
    name := name1,
    description := description2,
    imageUrl := imageUrl3,
    amount := token.amount,
    decimals := some decimals,
    collection := some collection3,
    attributes := some attributes1,
    metadata := pm,
    tokenType := some (classifyToken token),
    rawData := if includeRawData then some token else none }

/-- JavaScript `s.includes(sub)` substring containment. -/
def jsIncludesStr (s sub : String) : Bool :=
  sub == "" || (jsSplit s sub).length > 1

/-- Embedding of `filterByCollection` (tokenFiltering.ts): case-insensitive
match on the resolved collection. -/
def filterByCollection (tokens : List TokenData) (collectionId : String) : List TokenData :=
  tokens.filter (fun token =>
    truthyS token.collection &&
      jsToLower (token.collection.getD "") == jsToLower collectionId)

/-- The per-token predicate of `filterByTraits` (tokenFiltering.ts): a token
with neither attributes nor metadata traits fails outright, otherwise every
requested pair must match, attributes first, metadata trait map second. -/
def traitsPred (traits : List (String × String)) (token : TokenData) : Bool :=
  if (match token.attributes with | none => true | some l => l.length == 0) &&
      (match token.metadata with
        | none => true
        | some m => match m.traits with | none => true | some ts => ts.length == 0) then
    false
  else
    traits.all (fun kv =>
      let lowerTraitType := jsToLower kv.1
      let lowerValue := jsToLower kv.2
      let attributeMatch :=
        match token.attributes with
        | some attrs =>
            attrs.length > 0 && attrs.any (fun attr =>
              jsToLower attr.trait_type == lowerTraitType &&
                jsToLower attr.value == lowerValue)
        | none => false
      if attributeMatch then true
      else
        match token.metadata with
        | some m =>
            (match m.traits with
            | some ts =>
                match ts.find? (fun p => jsToLower p.1 == lowerTraitType) with
                | some p => jsToLower p.2 == lowerValue
                | none => false
            | none => false)
        | none => false)

/-- Embedding of `filterByTraits` (tokenFiltering.ts). -/
def filterByTraits (tokens : List TokenData) (traits : List (String × String)) :
    List TokenData :=
  tokens.filter (traitsPred traits)

/-- The collection pass of `advancedFilter`: exact (case-sensitive) membership
of the resolved collection in the requested list. -/
def collectionPass (cs : List String) (token : TokenData) : Bool :=
  truthyS token.collection && cs.contains (token.collection.getD "")

/-- The author pass of `advancedFilter`. -/
def authorPass (as' : List String) (token : TokenData) : Bool :=
  let creator :=
    let mc := token.metadata.bind TokenMetadata.creator
    if truthyS mc then mc else token.rawData.bind RawToken.creator
  truthyS creator && as'.contains (creator.getD "")

/-- The contract pass of `advancedFilter`. -/
def contractPass (cs : List String) (token : TokenData) : Bool :=
  let contractAddress := token.rawData.bind RawToken.contractAddress
  truthyS contractAddress && cs.contains (contractAddress.getD "")

/-- The search-term pass of `advancedFilter`: case-insensitive substring match
on name or description. -/
def searchPass (searchTerm : String) (token : TokenData) : Bool :=
  jsIncludesStr (jsToLower token.name) (jsToLower searchTerm) ||
    jsIncludesStr (jsToLower token.description) (jsToLower searchTerm)

/-- Filter criteria of `advancedFilter` (tokenFiltering.ts). -/
structure AdvancedFilters where
  collections : Option (List String) := none
  authors : Option (List String) := none
  contracts : Option (List String) := none
  searchTerm : Option String := none
  traits : Option (List (String × String)) := none
deriving Repr

/-- Embedding of `advancedFilter` (tokenFiltering.ts): five independent
conjunctive passes over a clone of the input list. -/
def advancedFilter (tokens : List TokenData) (filters : AdvancedFilters) : List TokenData :=
  let filtered1 :=
    match filters.collections with
    | some cs => if cs.length > 0 then tokens.filter (collectionPass cs) else tokens
    | none => tokens
  let filtered2 :=
    match filters.authors with
    | some as' => if as'.length > 0 then filtered1.filter (authorPass as') else filtered1
    | none => filtered1
  let filtered3 :=
    match filters.contracts with
    | some cs => if cs.length > 0 then filtered2.filter (contractPass cs) else filtered2
    | none => filtered2
  let filtered4 :=
    match filters.searchTerm with
    | some s => if s != "" then filtered3.filter (searchPass s) else filtered3
    | none => filtered3
  match filters.traits with
  | some ts => if ts.length > 0 then filterByTraits filtered4 ts else filtered4
  | none => filtered4

/-- Modelled from the spec: the comparison operation of the composite-filter
claim, intersecting two filter results by token id. -/
def intersectById (xs ys : List TokenData) : List TokenData :=
  xs.filter (fun x => ys.any (fun y => y.tokenId == x.tokenId))

/-!  Concrete instances used by the scenario theorems and witnesses. -/

/-- A `JSON.parse` model that throws on every input, as real `JSON.parse` does
on the malformed texts it is applied to below. -/
def jpFail : String → Except String JsVal := fun _ => .error "SyntaxError"

/-- A `JSON.stringify` model for paths that never consult it. -/
def strfBlank : JsVal → String := fun _ => ""

/-- The structured-index scenario input
`\x7b"721":\x7b"93":\x7b"Cybercitizen":"93","traits":\x7b"Background":"Blue"\x7d\x7d\x7d\x7d`. -/
def str721ex : String :=
  "\x7b\"721\":\x7b\"93\":\x7b\"Cybercitizen\":\"93\",\"traits\":\x7b\"Background\":\"Blue\"\x7d\x7d\x7d\x7d"

/-- The JSON value `JSON.parse` produces for `str721ex`. -/
def mdJson721ex : JsVal :=
  .obj [("721", .obj [("93", .obj [("Cybercitizen", .str "93"),
    ("traits", .obj [("Background", .str "Blue")])])])]

/-- A `JSON.parse` model agreeing with real JSON on `str721ex`. -/
def jp721ex : String → Except String JsVal :=
  fun s => if s == str721ex then .ok mdJson721ex else .error "SyntaxError"

/-- The input `\x7b"721":\x7b\x7d\x7d`: an empty structured-index envelope. -/
def strEmpty721 : String := "\x7b\"721\":\x7b\x7d\x7d"

/-- A `JSON.parse` model agreeing with real JSON on `strEmpty721`. -/
def jpEmpty721 : String → Except String JsVal :=
  fun s => if s == strEmpty721 then .ok (.obj [("721", .obj [])]) else .error "SyntaxError"

/-- The malformed input `\x7b"721":x` (brace-prefixed, 721-tagged, not JSON). -/
def strBad721 : String := "\x7b\"721\":x"

/-- The malformed input `\x7bnot json` from the spec scenario. -/
def strNotJson : String := "\x7bnot json"

/-- A token whose collection differs from the filter string only in case. -/
def tokenLowerX : TokenData :=
  { tokenId := "1", name := "Gnome 1", description := "", imageUrl := "",
    collection := some "x", attributes := some [⟨"Rarity", "Epic"⟩] }

/-- A token matching the composite criteria exactly. -/
def tokenUpperX : TokenData :=
  { tokenId := "1", name := "Gnome 1", description := "", imageUrl := "",
    collection := some "X", attributes := some [⟨"Rarity", "Epic"⟩] }

/-- A token matching neither criterion. -/
def tokenOther : TokenData :=
  { tokenId := "2", name := "Other", description := "", imageUrl := "",
    collection := some "Y", attributes := some [⟨"Rarity", "Common"⟩] }

/-- The composite criteria of the claim:
collections `["X"]`, traits `Rarity = Epic`. -/
def critXEpic : AdvancedFilters :=
  { collections := some ["X"], traits := some [("Rarity", "Epic")] }

/-- A raw balance record with quantity `"1"` and no image, description or
`#`-carrying name. -/
def rawAmount1 : RawToken := { amount := some "1" }

/-- A raw balance record with quantity `"2"` and a structured metadata object
attached, exercising classification independence from metadata. -/
def rawAmount2 : RawToken :=
  { amount := some "2", metadata := some (.obj [("name", .str "Meta")]) }

/-- Description text carrying a trait map under a different casing. -/
def strC6 : String := "\x7b\"traits\":\x7b\"series\":\"2\"\x7d\x7d"

/-- A `JSON.parse` model agreeing with real JSON on `strC6`. -/
def jpC6 : String → Except String JsVal :=
  fun s => if s == strC6 then .ok (.obj [("traits", .obj [("series", .str "2")])])
    else .error "SyntaxError"

/-- A raw record owning a `Series` attribute whose metadata re-supplies the
same trait as `series`. -/
def rawC6 : RawToken :=
  { amount := some "1", description := some strC6, attributes := [⟨"Series", "1"⟩] }

/-- The raw record of the placeholder scenario: id `t1`, no image anywhere. -/
def rawPlaceholder : RawToken := { tokenId := some "t1", amount := some "1" }

/-- Options with placeholder generation explicitly disabled by the caller. -/
def optsNoPlaceholder : TokenProcessingOptions := { generatePlaceholderImage := some false }

/-- Whether a value is a non-nullish primitive (string, number or boolean). -/
def JsVal.isPrimitive : JsVal → Bool
  | .str _ => true
  | .num _ => true
  | .bool _ => true
  | _ => false

/-!  Theorems. -/

/-- Inversion of a successful `Except` bind. -/
theorem except_bind_ok {ε α β : Type} {x : Except ε α} {f : α → Except ε β} {b : β}
    (h : (x >>= f) = .ok b) : ∃ a, x = .ok a ∧ f a = .ok b := by
  cases x with
  | error e => simp [Bind.bind, Except.bind] at h
  | ok a => exact ⟨a, rfl, by simpa [Bind.bind, Except.bind] using h⟩

/-- C2: for every string input and every behaviour of `JSON.parse`,
`parseMetadata` terminates normally and never throws — its `Except`-typed
embedding always yields `Except.ok`, carrying either `null` or a metadata
record (whose `type` tag is set by construction of `TokenMetadata`). -/
theorem parseMetadata_never_throws (jp : String → Except String JsVal)
    (options : MetadataOptions) (text : String) :
    ∃ r, parseMetadataE jp text options = .ok r := by
  unfold parseMetadataE
  split
  · exact ⟨none, rfl⟩
  · split
    · exact ⟨_, rfl⟩
    · exact ⟨_, rfl⟩

/-- C4: the structured-index input
`\x7b"721":\x7b"93":\x7b"Cybercitizen":"93","traits":\x7b"Background":"Blue"\x7d\x7d\x7d\x7d`
parses to collection `Cybercitizen`, display name `93`, and trait map
`Background = Blue, Token ID = 93`, the `Token ID` trait carrying the original
index id. -/
theorem parse721_structured_index_scenario :
    ∃ m, parseMetadataE jp721ex str721ex {} = .ok (some m) ∧
      m.collection = some "Cybercitizen" ∧ m.name = some "93" ∧
      m.traits = some [("Background", "Blue"), ("Token ID", "93")] :=
  ⟨_, rfl, rfl, rfl, rfl⟩

/-- C1 counterexample: the input `\x7b"721":\x7b\x7d\x7d` is neither empty nor
whitespace-only, `JSON.parse` decodes it, and yet `parseMetadata` returns
`null` (the 721 parser bails out on the key-less envelope). -/
theorem parseMetadata_nonempty_null_counterexample :
    parseMetadataE jpEmpty721 strEmpty721 {} = .ok none ∧
      strEmpty721 ≠ "" ∧ jsTrim strEmpty721 ≠ "" :=
  ⟨rfl, by decide, by decide⟩

/-- C3 counterexample: the input `\x7b"721":x` has trimmed text beginning with
a brace and fails to decode as JSON, yet `parseMetadata` returns `null`
rather than the `unknown` single-entry record the claim requires: the
721 branch swallows the decode failure in its own catch. -/
theorem parseMetadata_721_prefix_decode_failure_counterexample :
    (jsStartsWith (jsTrim strBad721) "\x7b") = true ∧
      jpFail (jsTrim strBad721) = .error "SyntaxError" ∧
      parseMetadataE jpFail strBad721 {} = .ok none ∧
      parseMetadataE jpFail strBad721 {} ≠
        .ok (some { type := .unknown, data := .lines [strBad721] }) := by
  refine ⟨by decide, rfl, rfl, ?_⟩
  intro h
  rw [show parseMetadataE jpFail strBad721 {} = .ok none from rfl] at h
  exact Option.noConfusion (Except.ok.inj h)

/-- C9 counterexample: `extractTraits` applied to `null` (a non-object input)
raises a TypeError instead of returning `undefined`. -/
theorem extractTraits_null_raises_counterexample :
    extractTraits JsVal.null false = .error "TypeError" := rfl

/-- C9 amended: for every non-nullish primitive input (strings, numbers,
booleans) and either configuration flag, `extractTraits` returns `undefined`
and never raises; on `null`/`undefined` it throws. -/
theorem extractTraits_primitive_returns_none (v : JsVal) (b : Bool)
    (h : v.isPrimitive = true) : extractTraits v b = .ok none := by
  cases v with
  | str s => cases b <;> rfl
  | num n => cases b <;> rfl
  | bool bb => cases b <;> rfl
  | undefined => exact Bool.noConfusion h
  | null => exact Bool.noConfusion h
  | arr xs => exact Bool.noConfusion h
  | obj fs => exact Bool.noConfusion h

/-- Witness for the amended C9 at the concrete input `"hello"` with nested
property extraction enabled. -/
theorem extractTraits_primitive_returns_none_witness :
    JsVal.isPrimitive (.str "hello") = true ∧
      extractTraits (.str "hello") true = .ok none :=
  ⟨rfl, extractTraits_primitive_returns_none (.str "hello") true rfl⟩

/-- C8: with placeholder generation disabled by the caller and no image
resolvable from anywhere, `processTokenData` still produces the synthetic
placeholder URL — `options.generatePlaceholderImage || true` can never be
`false`, so the resolved image is not left empty as the claim requires. -/
theorem placeholder_option_cannot_disable :
    optsNoPlaceholder.generatePlaceholderImage = some false ∧
      (processTokenData jpFail strfBlank rawPlaceholder optsNoPlaceholder).imageUrl =
        "https://via.placeholder.com/400/t1?text=Unknown%20Token" :=
  ⟨rfl, rfl⟩

/-- Helper: outside the 721 prefix, a successful `parseBodyE` value is always
a record, never `null` — the structured branch wraps a `TokenMetadata`-typed
computation and the line branches build records directly. -/
theorem parseBodyE_ok_some {jp : String → Except String JsVal}
    {options : MetadataOptions} {text : String} {r : Option TokenMetadata}
    (h2 : jsStartsWith (jsTrim text) tag721 = false)
    (h : parseBodyE jp options text = .ok r) : ∃ m, r = some m := by
  unfold parseBodyE at h
  simp only [h2, Bool.false_eq_true, if_false] at h
  split at h
  · obtain ⟨json, _, h'⟩ := except_bind_ok h
    obtain ⟨m, _, h''⟩ := except_bind_ok h'
    exact ⟨m, by simpa [Pure.pure, Except.pure] using h''.symm⟩
  · split at h
    · split at h
      · exact ⟨_, (Except.ok.inj h).symm⟩
      · exact ⟨_, (Except.ok.inj h).symm⟩
    · exact ⟨_, (Except.ok.inj h).symm⟩

/-- C1 amended: `parseMetadata` returns `null` only for the empty string or
for inputs whose trimmed text begins with the literal `\x7b"721":` prefix and
whose 721 parsing bails out; every other input — including whitespace-only
text and malformed structured text — yields a record, whatever `JSON.parse`
does. -/
theorem parseMetadata_record_outside_721_prefix (jp : String → Except String JsVal)
    (options : MetadataOptions) (text : String) (h1 : text ≠ "")
    (h2 : jsStartsWith (jsTrim text) tag721 = false) :
    ∃ m, parseMetadataE jp text options = .ok (some m) := by
  unfold parseMetadataE
  have hne : (text == "") = false := by simp [h1]
  rw [hne]
  simp only [Bool.false_eq_true, if_false]
  cases hb : parseBodyE jp options text with
  | ok r =>
      obtain ⟨m, rfl⟩ := parseBodyE_ok_some h2 hb
      exact ⟨m, rfl⟩
  | error e => exact ⟨_, rfl⟩

/-- Witness for the amended C1 at the plain input `hello`. -/
theorem parseMetadata_record_outside_721_prefix_witness :
    ("hello" ≠ "" ∧ jsStartsWith (jsTrim "hello") tag721 = false) ∧
      ∃ m, parseMetadataE jpFail "hello" {} = .ok (some m) :=
  ⟨⟨by decide, by decide⟩,
    parseMetadata_record_outside_721_prefix jpFail {} "hello" (by decide) (by decide)⟩

/-- C3 amended: for every input whose trimmed text begins with a brace or
bracket but not with the literal `\x7b"721":` prefix, a `JSON.parse` failure is
swallowed and `parseMetadata` returns the `unknown` record whose payload is
the single-entry list holding the original text; in particular the input
`\x7bnot json` yields exactly this result with no exception.  Inputs carrying
the `\x7b"721":` prefix instead surface the decode failure as `null`. -/
theorem parseMetadata_unrecognized_fallback (jp : String → Except String JsVal)
    (options : MetadataOptions) (text : String) (e : String)
    (h1 : (jsStartsWith (jsTrim text) "\x7b" || jsStartsWith (jsTrim text) "[") = true)
    (h2 : jsStartsWith (jsTrim text) tag721 = false)
    (h3 : jp (jsTrim text) = .error e) :
    parseMetadataE jp text options =
      .ok (some { type := .unknown, data := .lines [text] }) := by
  have hne : (text == "") = false := by
    cases hx : text == "" with
    | false => rfl
    | true =>
        have : text = "" := by simpa using hx
        subst this
        exact absurd h1 (by decide)
  have hbody : parseBodyE jp options text = .error e := by
    unfold parseBodyE
    simp only [h2, Bool.false_eq_true, if_false, h1, if_true]
    rw [h3]
    rfl
  unfold parseMetadataE
  rw [hne, hbody]
  rfl

/-- Witness for the amended C3 at the spec scenario input `\x7bnot json`. -/
theorem parseMetadata_unrecognized_fallback_witness :
    ((jsStartsWith (jsTrim strNotJson) "\x7b" || jsStartsWith (jsTrim strNotJson) "[") = true ∧
      jsStartsWith (jsTrim strNotJson) tag721 = false ∧
      jpFail (jsTrim strNotJson) = .error "SyntaxError") ∧
      parseMetadataE jpFail strNotJson {} =
        .ok (some { type := .unknown, data := .lines [strNotJson] }) :=
  ⟨⟨by decide, by decide, rfl⟩,
    parseMetadata_unrecognized_fallback jpFail {} strNotJson "SyntaxError"
      (by decide) (by decide) rfl⟩

/-- C10: with an empty requested trait set, `filterByTraits` keeps exactly the
tokens owning at least one attribute or metadata trait — a token with neither
is eliminated even though the empty conjunction holds vacuously. -/
theorem filterByTraits_empty_filter (tokens : List TokenData) :
    filterByTraits tokens [] = tokens.filter (fun token =>
      !(token.attributes.getD []).isEmpty ||
        !((token.metadata.bind TokenMetadata.traits).getD []).isEmpty) := by
  unfold filterByTraits
  apply List.filter_congr
  intro t _
  unfold traitsPred
  rcases t with ⟨tid, nm, ds, im, am, dec, col, attrs, md, tt, rd⟩
  cases attrs with
  | none =>
      cases md with
      | none => rfl
      | some m =>
          rcases m with ⟨mty, mdt, mim, mnm, mds, mtr, mcol, mcr, mry, mst, mdec⟩
          cases mtr with
          | none => rfl
          | some ts => cases ts <;> rfl
  | some l =>
      cases md with
      | none => cases l <;> rfl
      | some m =>
          rcases m with ⟨mty, mdt, mim, mnm, mds, mtr, mcol, mcr, mry, mst, mdec⟩
          cases mtr with
          | none => cases l <;> rfl
          | some ts => cases l <;> cases ts <;> rfl

/-- C5: the classification written into the processed token is computed from
the raw balance record alone: a record with quantity exactly `"1"` but no
image, no non-empty description and no `#` in its name is classified
`unknown`, and a record whose quantity parses to an integer greater than `1`
(such as `"2"`) is classified `fungible` — whatever metadata, parser
behaviour or options accompany it. -/
theorem classification_boundary (jp : String → Except String JsVal)
    (strf : JsVal → String) (token : RawToken) (options : TokenProcessingOptions) :
    ((token.amount = some "1" ∧ truthyS token.imageUrl = false ∧
        truthyS token.image = false ∧ truthyS token.description = false ∧
        nameHasHash token = false) →
      (processTokenData jp strf token options).tokenType = some .unknown) ∧
    (token.amount = some "2" →
      (processTokenData jp strf token options).tokenType = some .fungible) := by
  have hproj : (processTokenData jp strf token options).tokenType =
      some (classifyToken token) := rfl
  constructor
  · rintro ⟨h1, h2, h3, h4, h5⟩
    rw [hproj]
    unfold classifyToken isNFT
    rw [h1, h2, h3, h4, h5]
    rfl
  · intro h1
    rw [hproj]
    unfold classifyToken isNFT
    rw [h1]
    rfl

/-- Witness for C5: a bare quantity-1 record is `unknown`, and a quantity-2
record carrying a structured metadata object is `fungible`. -/
theorem classification_boundary_witness :
    ((rawAmount1.amount = some "1" ∧ truthyS rawAmount1.imageUrl = false ∧
        truthyS rawAmount1.image = false ∧ truthyS rawAmount1.description = false ∧
        nameHasHash rawAmount1 = false) ∧
      (processTokenData jpFail strfBlank rawAmount1 {}).tokenType = some .unknown) ∧
    (rawAmount2.amount = some "2" ∧
      (processTokenData jpFail strfBlank rawAmount2 {}).tokenType = some .fungible) :=
  ⟨⟨⟨rfl, rfl, rfl, rfl, rfl⟩,
    (classification_boundary jpFail strfBlank rawAmount1 {}).1 ⟨rfl, rfl, rfl, rfl, rfl⟩⟩,
   ⟨rfl, (classification_boundary jpFail strfBlank rawAmount2 {}).2 rfl⟩⟩

/-- Helper: a member of a list is contained in it. -/
theorem contains_of_mem {l : List String} {a : String} (h : a ∈ l) : l.contains a = true := by
  simp only [List.contains, List.elem_eq_mem, decide_eq_true_eq]
  exact h

/-- Helper: appending an element preserves containment. -/
theorem contains_append_of_contains {l : List String} {a : String} (x : String)
    (h : l.contains a = true) : (l ++ [x]).contains a = true := by
  simp only [List.contains, List.elem_eq_mem, decide_eq_true_eq, List.mem_append] at *
  exact Or.inl h

/-- Helper: appending a different element leaves containment unchanged. -/
theorem contains_append_ne {l : List String} {a x : String} (h : (x == a) = false) :
    (l ++ [x]).contains a = l.contains a := by
  have hne : ¬ (a = x) := fun hax => by simp [hax] at h
  simp only [List.contains, List.elem_eq_mem, List.mem_append, List.mem_singleton]
  by_cases hm : a ∈ l
  · simp [hm]
  · simp [hm, hne]

/-- The merge loop adds no entry whose lower-cased name is already in the
seen set: the count of such entries never changes. -/
theorem mergeGo_countP_of_contains (key : String) (rest : List (String × String)) :
    ∀ (acc : List Attr) (seen : List String), seen.contains key = true →
      ((mergeGo rest (acc, seen)).1.countP (fun a => jsToLower a.trait_type == key)) =
        acc.countP (fun a => jsToLower a.trait_type == key) := by
  induction rest with
  | nil => intro acc seen _; rfl
  | cons kv rest ih =>
      intro acc seen h
      obtain ⟨k, v⟩ := kv
      simp only [mergeGo]
      split
      · exact ih acc seen h
      · next hcond =>
          have h2 : (seen ++ [jsToLower k]).contains key = true :=
            contains_append_of_contains _ h
          rw [ih _ _ h2, List.countP_append]
          have hne : ((fun a => jsToLower a.trait_type == key)
              ({ trait_type := k, value := v } : Attr)) = false := by
            cases hkk : jsToLower k == key with
            | false => simpa using hkk
            | true =>
                exfalso
                have hkey : jsToLower k = key := eq_of_beq hkk
                rw [hkey] at hcond
                exact hcond h
          simp [List.countP_cons, hne]

/-- The merge loop adds at most one entry with a given lower-cased name, and
none at all once the name is in the seen set. -/
theorem mergeGo_countP_le (key : String) (rest : List (String × String)) :
    ∀ (acc : List Attr) (seen : List String),
      ((mergeGo rest (acc, seen)).1.countP (fun a => jsToLower a.trait_type == key)) ≤
        acc.countP (fun a => jsToLower a.trait_type == key) +
          (if seen.contains key = true then 0 else 1) := by
  induction rest with
  | nil =>
      intro acc seen
      exact Nat.le_add_right _ _
  | cons kv rest ih =>
      intro acc seen
      obtain ⟨k, v⟩ := kv
      simp only [mergeGo]
      split
      · next hcond =>
          exact ih acc seen
      · next hcond =>
          cases hkk : (jsToLower k == key) with
          | true =>
              have hkey : jsToLower k = key := eq_of_beq hkk
              have hseen : seen.contains key = false := by
                rw [← hkey]
                cases hx : seen.contains (jsToLower k) with
                | false => rfl
                | true => exact absurd hx hcond
              have h2 : (seen ++ [jsToLower k]).contains key = true := by
                rw [hkey]
                apply contains_of_mem
                simp
              have hb := ih (acc ++ [{ trait_type := k, value := v }]) (seen ++ [jsToLower k])
              rw [h2] at hb
              simp only [List.countP_append, List.countP_cons, List.countP_nil, hkk] at hb
              rw [hseen]
              simpa using hb
          | false =>
              have h2 : (seen ++ [jsToLower k]).contains key = seen.contains key :=
                contains_append_ne hkk
              have hb := ih (acc ++ [{ trait_type := k, value := v }]) (seen ++ [jsToLower k])
              rw [h2] at hb
              simpa [List.countP_append, List.countP_cons, hkk] using hb

/-- An attribute list already carrying the name keeps exactly its entries. -/
theorem mergeAttributes_countP_of_pos (attributes : List Attr)
    (traits : List (String × String)) (key : String)
    (h : 0 < attributes.countP (fun a => jsToLower a.trait_type == key)) :
    (mergeAttributes attributes traits).countP (fun a => jsToLower a.trait_type == key) =
      attributes.countP (fun a => jsToLower a.trait_type == key) := by
  obtain ⟨a, ha, hp⟩ := List.countP_pos_iff.mp h
  have hmem : key ∈ attributes.map (fun a => jsToLower a.trait_type) :=
    List.mem_map.mpr ⟨a, ha, eq_of_beq hp⟩
  exact mergeGo_countP_of_contains key traits attributes _ (contains_of_mem hmem)

/-- The merged list carries at most `max 1 (raw count)` entries of a name. -/
theorem mergeAttributes_countP_le (attributes : List Attr)
    (traits : List (String × String)) (key : String) :
    (mergeAttributes attributes traits).countP (fun a => jsToLower a.trait_type == key) ≤
      max 1 (attributes.countP (fun a => jsToLower a.trait_type == key)) := by
  have hb := mergeGo_countP_le key traits attributes
    (attributes.map fun a => jsToLower a.trait_type)
  cases hc : (attributes.map fun a => jsToLower a.trait_type).contains key with
  | true =>
      rw [hc] at hb
      have hb' : (mergeAttributes attributes traits).countP
          (fun a => jsToLower a.trait_type == key) ≤
          attributes.countP (fun a => jsToLower a.trait_type == key) := by
        simpa [mergeAttributes] using hb
      exact hb'.trans (le_max_right 1 _)
  | false =>
      have hz : attributes.countP (fun a => jsToLower a.trait_type == key) = 0 := by
        by_contra hnz
        obtain ⟨a, ha, hp⟩ := List.countP_pos_iff.mp (Nat.pos_of_ne_zero hnz)
        have hmem : key ∈ attributes.map (fun a => jsToLower a.trait_type) :=
          List.mem_map.mpr ⟨a, ha, eq_of_beq hp⟩
        rw [contains_of_mem hmem] at hc
        exact Bool.noConfusion hc
      rw [hc, hz] at hb
      have hb' : (mergeAttributes attributes traits).countP
          (fun a => jsToLower a.trait_type == key) ≤ 1 := by
        simpa [mergeAttributes] using hb
      rw [hz]
      exact hb'.trans (le_max_left 1 0)

/-- Both count facts for the attribute list after the metadata block. -/
theorem resolveAttributes_countP (attributes : List Attr) (m : TokenMetadata) (key : String) :
    (0 < attributes.countP (fun a => jsToLower a.trait_type == key) →
      (resolveAttributes attributes m).countP (fun a => jsToLower a.trait_type == key) =
        attributes.countP (fun a => jsToLower a.trait_type == key)) ∧
    (resolveAttributes attributes m).countP (fun a => jsToLower a.trait_type == key) ≤
      max 1 (attributes.countP (fun a => jsToLower a.trait_type == key)) := by
  unfold resolveAttributes
  cases m.traits with
  | none => exact ⟨fun _ => rfl, le_max_right 1 _⟩
  | some ts =>
      dsimp only
      by_cases hts : ts.length > 0
      · rw [if_pos hts]
        exact ⟨mergeAttributes_countP_of_pos attributes ts key,
          mergeAttributes_countP_le attributes ts key⟩
      · rw [if_neg hts]
        exact ⟨fun _ => rfl, le_max_right 1 _⟩

/-- C6: in the token produced by `processTokenData`, a metadata trait is
appended only when no attribute with the same name (case-insensitively) is
already present: a name already carried by the raw attributes keeps exactly
its raw count — so the `Series`-vs-`series` merge yields one entry — and a
fresh name is appended at most once. -/
theorem processTokenData_merge_dedup (jp : String → Except String JsVal)
    (strf : JsVal → String) (token : RawToken) (options : TokenProcessingOptions)
    (key : String) :
    (0 < token.attributes.countP (fun a => jsToLower a.trait_type == key) →
      ((processTokenData jp strf token options).attributes.getD []).countP
          (fun a => jsToLower a.trait_type == key) =
        token.attributes.countP (fun a => jsToLower a.trait_type == key)) ∧
    ((processTokenData jp strf token options).attributes.getD []).countP
        (fun a => jsToLower a.trait_type == key) ≤
      max 1 (token.attributes.countP (fun a => jsToLower a.trait_type == key)) := by
  have hproj : (processTokenData jp strf token options).attributes.getD [] =
      (match (processTokenData jp strf token options).metadata with
        | some m => resolveAttributes token.attributes m
        | none => token.attributes) := rfl
  rw [hproj]
  cases (processTokenData jp strf token options).metadata with
  | none => exact ⟨fun _ => rfl, le_max_right 1 _⟩
  | some m => exact resolveAttributes_countP token.attributes m key

/-- Witness for C6 at the `Series`-vs-`series` scenario record. -/
theorem processTokenData_merge_dedup_witness :
    0 < rawC6.attributes.countP (fun a => jsToLower a.trait_type == "series") ∧
      ((processTokenData jpC6 strfBlank rawC6 {}).attributes.getD []).countP
          (fun a => jsToLower a.trait_type == "series") = 1 := by
  constructor
  · decide
  · have h := (processTokenData_merge_dedup jpC6 strfBlank rawC6 {} "series").1 (by decide)
    rw [h]
    decide

/-- Helper: two successive filters amount to filtering by the conjunction. -/
theorem filter_filter_and {α : Type} (p q : α → Bool) (l : List α) :
    (l.filter p).filter q = l.filter (fun a => p a && q a) := by
  induction l with
  | nil => rfl
  | cons a as ih =>
      cases hp : p a <;> cases hq : q a <;> simp [List.filter_cons, hp, hq, ih]

/-- C7 counterexample: a token whose collection is `x` with trait
`Rarity = Epic` survives both `filterByCollection` (case-insensitive) and
`filterByTraits`, so their id-intersection keeps it, yet the composite filter
drops it — its collection pass compares case-sensitively. -/
theorem advancedFilter_case_sensitivity_counterexample :
    advancedFilter [tokenLowerX] critXEpic ≠
      intersectById (filterByCollection [tokenLowerX] "X")
        (filterByTraits [tokenLowerX] [("Rarity", "Epic")]) := by
  intro h
  rw [show advancedFilter [tokenLowerX] critXEpic = [] from rfl] at h
  rw [show intersectById (filterByCollection [tokenLowerX] "X")
      (filterByTraits [tokenLowerX] [("Rarity", "Epic")]) = [tokenLowerX] from rfl] at h
  exact List.noConfusion h

/-- C7 amended: with criteria `collections = ["X"]`, `traits = Rarity ↦ Epic`,
the composite filter returns exactly the tokens passing both its own
collection pass — exact, case-sensitive membership, unlike the
case-insensitive `filterByCollection` — and the trait predicate; over tokens
with pairwise distinct ids this equals intersecting, by token id, the results
of the exact collection pass and of `filterByTraits` applied independently. -/
theorem advancedFilter_composite_intersection (tokens : List TokenData)
    (h : (tokens.map TokenData.tokenId).Nodup) :
    advancedFilter tokens critXEpic =
      tokens.filter (fun t => collectionPass ["X"] t && traitsPred [("Rarity", "Epic")] t) ∧
    advancedFilter tokens critXEpic =
      intersectById (tokens.filter (collectionPass ["X"]))
        (filterByTraits tokens [("Rarity", "Epic")]) := by
  have hadv : advancedFilter tokens critXEpic =
      (tokens.filter (collectionPass ["X"])).filter (traitsPred [("Rarity", "Epic")]) := rfl
  constructor
  · rw [hadv]
    exact filter_filter_and _ _ tokens
  · rw [hadv]
    unfold intersectById filterByTraits
    apply List.filter_congr
    intro t ht
    have htmem : t ∈ tokens := (List.mem_filter.mp ht).1
    cases hany : (tokens.filter (traitsPred [("Rarity", "Epic")])).any
        (fun y => y.tokenId == t.tokenId) with
    | true =>
        obtain ⟨u, hu, hbeq⟩ := List.any_eq_true.mp hany
        have humem : u ∈ tokens := (List.mem_filter.mp hu).1
        have hupred : traitsPred [("Rarity", "Epic")] u = true := (List.mem_filter.mp hu).2
        have hid : u.tokenId = t.tokenId := eq_of_beq hbeq
        have hut : u = t := List.inj_on_of_nodup_map h humem htmem hid
        rw [← hut]
        exact hupred
    | false =>
        cases hq : traitsPred [("Rarity", "Epic")] t with
        | false => rfl
        | true =>
            exfalso
            have hmemf : t ∈ tokens.filter (traitsPred [("Rarity", "Epic")]) :=
              List.mem_filter.mpr ⟨htmem, hq⟩
            have : (tokens.filter (traitsPred [("Rarity", "Epic")])).any
                (fun y => y.tokenId == t.tokenId) = true :=
              List.any_eq_true.mpr ⟨t, hmemf, by simp⟩
            rw [hany] at this
            exact Bool.noConfusion this

/-- Witness for the amended C7 on two tokens with distinct ids, one matching
both criteria and one matching neither. -/
theorem advancedFilter_composite_intersection_witness :
    ([tokenUpperX, tokenOther].map TokenData.tokenId).Nodup ∧
      advancedFilter [tokenUpperX, tokenOther] critXEpic =
        intersectById ([tokenUpperX, tokenOther].filter (collectionPass ["X"]))
          (filterByTraits [tokenUpperX, tokenOther] [("Rarity", "Epic")]) :=
  ⟨by decide,
    (advancedFilter_composite_intersection [tokenUpperX, tokenOther] (by decide)).2⟩

end Ergo
